import Mathlib

/-!
Verification development for the Du Novo duplex-sequencing pipeline
(`make-consensi.py`, `correct.py`, `align-families.py`, `dunovo_parsers.py`).

The Python sources are shallowly embedded below.  External collaborators
(the multiple-sequence and pairwise aligners, the networkx graph library,
and the C `consensus` extension module) are either abstracted as function
parameters or, where a claim depends on their behaviour, modelled from the
specification (such definitions say so in their doc comment).
-/

namespace Dunovo

/-! ### Character-level string primitives

Python string operations act character by character, so they are embedded
through the character list of a `String` (this also keeps every definition
kernel-reducible for concrete witnesses). -/

/-- Python `s.split(sep)` for a one-character separator: split at every
occurrence, keeping empty pieces. -/
def splitOnChar (sep : Char) (s : String) : List String :=
  (s.toList.splitOnP (fun c => c = sep)).map List.asString

/-- Python `line.split('\t')`. -/
def splitTabs (s : String) : List String :=
  splitOnChar '\t' s

/-- Python `s.endswith(suffix)`. -/
def strEndsWith (s suffix : String) : Bool :=
  suffix.toList.isSuffixOf s.toList

/-- Python `s[:-n]` for `n ≤ len(s)`: drop the last `n` characters. -/
def strDropRight (s : String) (n : Nat) : String :=
  (s.toList.take (s.toList.length - n)).asString

/-- Python `s.startswith(c)` for a one-character prefix. -/
def strStartsWithChar (s : String) (c : Char) : Bool :=
  s.toList.head? = some c

/-! ### Duplex per-column merge (`consensus.build_consensus_duplex_simple`) -/

/-- Predicate for a concrete nucleotide base (not a gap, not an N). -/
def isBase (c : Char) : Bool :=
  c = 'A' || c = 'C' || c = 'G' || c = 'T'

/-- Modelled from the spec: the IUPAC two-base ambiguity code covering two
distinct concrete bases (part of the C `consensus` extension module, which is
not among the Python sources).  'M' covers A/C, 'R' covers A/G, 'W' covers A/T,
'S' covers C/G, 'Y' covers C/T, 'K' covers G/T. -/
def iupacPair (c1 c2 : Char) : Char :=
  if (c1 = 'A' && c2 = 'C') || (c1 = 'C' && c2 = 'A') then 'M'
  else if (c1 = 'A' && c2 = 'G') || (c1 = 'G' && c2 = 'A') then 'R'
  else if (c1 = 'A' && c2 = 'T') || (c1 = 'T' && c2 = 'A') then 'W'
  else if (c1 = 'C' && c2 = 'G') || (c1 = 'G' && c2 = 'C') then 'S'
  else if (c1 = 'C' && c2 = 'T') || (c1 = 'T' && c2 = 'C') then 'Y'
  else if (c1 = 'G' && c2 = 'T') || (c1 = 'T' && c2 = 'G') then 'K'
  else 'N'

/-- Modelled from the spec: the per-column merge rule of
`consensus.build_consensus_duplex_simple` (the `consensus` module is a C
extension that is not among the Python sources).  For one aligned column:
if both sides agree, emit that character; if either side is 'N', emit 'N';
if exactly one side is a gap, emit 'N'; otherwise (two different concrete
bases) emit the IUPAC two-base ambiguity code covering both. -/
def mergeBase (c1 c2 : Char) : Char :=
  if c1 = c2 then c1
  else if c1 = 'N' || c2 = 'N' then 'N'
  else if c1 = '-' || c2 = '-' then 'N'
  else iupacPair c1 c2

/-- Modelled from the spec: `consensus.build_consensus_duplex_simple` walks the
two equal-length aligned single-strand consensuses column by column and merges
each column with the duplex rule. -/
def build_consensus_duplex_simple (cons1 cons2 : List Char) : List Char :=
  List.zipWith mergeBase cons1 cons2

/-! ### Barcode reversal detection (`correct.py: is_alignment_reversed`) -/

/-- The half-swapped rotation of a barcode: the second half (split point at
`length / 2`, integer division) concatenated before the first half.  This is
`barcode2[half:] + barcode2[:half]` in `is_alignment_reversed`. -/
def halfSwapped (barcode : String) : String :=
  let half := barcode.length / 2
  (barcode.toList.drop half ++ barcode.toList.take half).asString

/-- Embedding of `correct.py: is_alignment_reversed`.  The external
`bfx.swalign.smith_waterman` aligner is abstracted as a score function `sw`
(only the `.score` attribute of its result is used by the source). -/
def is_alignment_reversed (sw : String → String → Int) (barcode1 barcode2 : String) : Bool :=
  let barcode2_rev := halfSwapped barcode2
  let fwd_score := sw barcode1 barcode2
  let rev_score := sw barcode1 barcode2_rev
  if rev_score > fwd_score then true else false

/-- Python `dict` lookup for an association list (keys are unique when the
table is built by `make_correction_table` over disjoint components). -/
def dictGet (table : List (String × String)) (key : String) : Option String :=
  List.lookup key table

/-- Embedding of the per-line rewrite of `correct.py: print_corrected_output`:
given the correction map, the reversed-barcodes set, the abstract
Smith-Waterman scorer and the prepend flag, rewrite one line's fields.
Returns `none` when the line has fewer than two fields (Python would raise an
`IndexError` on `fields[1]`). -/
def correctLine (corrections : List (String × String)) (reversed_barcodes : List String)
    (sw : String → String → Int) (prepend : Bool) (fields : List String) :
    Option (List String) :=
  match fields with
  | raw_barcode :: order :: rest =>
    let pair : String × String :=
      match dictGet corrections raw_barcode with
      | some correct_barcode =>
        if (raw_barcode ∈ reversed_barcodes || correct_barcode ∈ reversed_barcodes)
            && is_alignment_reversed sw raw_barcode correct_barcode then
          (correct_barcode, if order = "ab" then "ba" else "ab")
        else
          (correct_barcode, order)
      | none => (raw_barcode, order)
    if prepend then
      some (pair.1 :: pair.2 :: raw_barcode :: order :: rest)
    else
      some (pair.1 :: pair.2 :: rest)
  | _ => none

/-! ### Duplex consensus construction (`make-consensi.py`) -/

/-- One raw read of a family in `make-consensi.py: process_families`
(`{'name': name, 'seq': seq, 'qual': qual}`). -/
structure MCRead where
  name : String
  seq : String
  qual : String
deriving Repr, DecidableEq

/-- A single-strand consensus record as built by `make-consensi.py: make_sscs`
(`{'seq':…, 'order':…, 'mate':…, 'nreads':…}`). -/
structure Sscs where
  seq : String
  order : String
  mate : Int
  nreads : Nat
deriving Repr, DecidableEq

/-- A duplex consensus record as built by `make-consensi.py: make_dcss`
(`{'seq':…, 'nreads':…}` where `nreads` is the per-strand pair of counts). -/
structure Dcs where
  seq : String
  nreads : List Nat
deriving Repr, DecidableEq

/-- The result of the external pairwise aligner (`bfx.swalign` or
`bfx.pair_align`): two gapped sequences.  Only `.target` and `.query` are used
by `make_dcss`. -/
structure PairAln where
  target : String
  query : String
deriving Repr, DecidableEq

/-- The `(order, mate)` index of a single-strand family; `mate` is the
0-based integer `int(this_mate_str) - 1` computed by `process_families`. -/
abbrev OrderMate := String × Int

/-- The fixed mapping in `make_dcss` between a duplex consensus mate and the
order/mates of the SSCSs it is composed of. -/
def ordermates (duplex_mate : Nat) : List OrderMate :=
  if duplex_mate = 0 then [("ab", 0), ("ba", 1)] else [("ab", 1), ("ba", 0)]

/-- String-level wrapper of the duplex column merge, as applied by `make_dcss`
to the aligned target and query. -/
def buildDuplexSeq (target query : String) : String :=
  (build_consensus_duplex_simple target.toList query.toList).asString

/-- The body of one `duplex_mate` iteration of `make_dcss`'s loop.
`ok none` models the `return []` exits (incomplete SSCS pair, or the
biopython aligner returning `None`); `error` models the `AssertionError`
raised when the aligned target and query differ in length.
The external pairwise aligner is abstracted as `aligner` (returning `none`
when there is no successful alignment). -/
def dcsForMate (aligner : String → String → Option PairAln)
    (sscss : List (OrderMate × Sscs)) (duplex_mate : Nat) :
    Except String (Option Dcs) :=
  match (ordermates duplex_mate).filterMap (fun om => List.lookup om sscss) with
  | sscs1 :: sscs2 :: _ =>
    match aligner sscs1.seq sscs2.seq with
    | none => .ok none
    | some algn =>
      if algn.target.length ≠ algn.query.length then
        .error "AssertionError: len(align.target) != len(align.query)"
      else
        .ok (some { seq := buildDuplexSeq algn.target algn.query,
                    nreads := [sscs1.nreads, sscs2.nreads] })
  | _ => .ok none

/-- Embedding of `make-consensi.py: make_dcss` (lines 393-435).  The Python
`return []` inside the loop exits with the empty list without touching the
other duplex mate; the `AssertionError` on a post-alignment length mismatch
propagates as an error. -/
def make_dcss (aligner : String → String → Option PairAln)
    (sscss : List (OrderMate × Sscs)) : Except String (List Dcs) :=
  match dcsForMate aligner sscss 0 with
  | .error e => .error e
  | .ok none => .ok []
  | .ok (some dcs0) =>
    match dcsForMate aligner sscss 1 with
    | .error e => .error e
    | .ok none => .ok []
    | .ok (some dcs1) => .ok [dcs0, dcs1]

/-- Embedding of `make-consensi.py: make_sscs`.  The external C function
`consensus.get_consensus` is abstracted as `get_cons` (taking the family's
sequences and quality strings). -/
def make_sscs (get_cons : List String → List String → String)
    (family : List MCRead) (order : String) (mate : Int) : Sscs :=
  { seq := get_cons (family.map (·.seq)) (family.map (·.qual)),
    order := order, mate := mate, nreads := family.length }

/-- Embedding of `make-consensi.py: make_sscss`: families with fewer than
`min_reads` reads contribute no single-strand consensus. -/
def make_sscss (get_cons : List String → List String → String) (min_reads : Nat)
    (duplex : List (OrderMate × List MCRead)) : List (OrderMate × Sscs) :=
  duplex.filterMap (fun om_family =>
    if om_family.2.length < min_reads then none
    else some (om_family.1, make_sscs get_cons om_family.2 om_family.1.1 om_family.1.2))

/-- Embedding of `make-consensi.py: process_duplex` (the consensus-building
core; output formatting and timing statistics are omitted).  The
`except AssertionError` handler only logs and re-raises, so an error from
`make_dcss` propagates unchanged. -/
def mcProcessDuplex (get_cons : List String → List String → String)
    (aligner : String → String → Option PairAln) (min_reads : Nat)
    (duplex : List (OrderMate × List MCRead)) :
    Except String (List Dcs × List (OrderMate × Sscs)) :=
  let sscss := make_sscss get_cons min_reads duplex
  match make_dcss aligner sscss with
  | .error e => .error e
  | .ok dcss => .ok (dcss, sscss)

/-! ### Read-id pair checking (`assert_read_ids_match`, identical in
`align-families.py` and `correct.py`) -/

/-- Outcome of `assert_read_ids_match`: success, the specific swapped-mates
`ValueError`, the generic mismatch `ValueError`, or the `IndexError` Python
raises on `name.split()[0]` when a name has no whitespace-separated token. -/
inductive IdCheck where
  | ok
  | swappedMates
  | mismatch
  | indexError
deriving Repr, DecidableEq

/-- Python `name.split()[0]`: the first non-empty whitespace-separated token,
or `none` when there is none (Python raises `IndexError` then). -/
def firstToken (s : String) : Option String :=
  ((s.toList.splitOnP Char.isWhitespace).map List.asString).find? (fun t => t ≠ "")

/-- Strip a trailing `/1` from mate 1's id (Python `id1[:-2]`). -/
def stripMate1 (t : String) : String :=
  if strEndsWith t "/1" then strDropRight t 2 else t

/-- Strip a trailing `/2` from mate 2's id (Python `id2[:-2]`). -/
def stripMate2 (t : String) : String :=
  if strEndsWith t "/2" then strDropRight t 2 else t

/-- Embedding of `assert_read_ids_match` (`align-families.py:274` and
`correct.py:375`, the two copies are textually identical). -/
def assert_read_ids_match (name1 name2 : String) : IdCheck :=
  match firstToken name1, firstToken name2 with
  | some t1, some t2 =>
    let id1 := stripMate1 t1
    let id2 := stripMate2 t2
    if id1 = id2 then .ok
    else if strEndsWith id1 "/2" && strEndsWith id2 "/1" then .swappedMates
    else .mismatch
  | _, _ => .indexError

/-! ### Family alignment (`align-families.py`) -/

/-- Python exceptions relevant to `align-families.py: process_duplex`:
`AssertionError` is re-raised (fatal), while `OSError` and
`subprocess.CalledProcessError` from the external aligner are caught
per-family. -/
inductive PyErr where
  | assertionError (msg : String)
  | osError (msg : String)
deriving Repr, DecidableEq

/-- One read pair of a family in `align-families.py: align_families`
(`{'name1':…, 'seq1':…, 'qual1':…, 'name2':…, 'seq2':…, 'qual2':…}`). -/
structure PairRead where
  name1 : String
  seq1 : String
  qual1 : String
  name2 : String
  seq2 : String
  qual2 : String
deriving Repr, DecidableEq

/-- Python `pair['name'+mate]` for `mate` "1" or "2". -/
def prName (pr : PairRead) (mate : Nat) : String :=
  if mate = 1 then pr.name1 else pr.name2

/-- Python `pair['seq'+mate]` for `mate` "1" or "2". -/
def prSeq (pr : PairRead) (mate : Nat) : String :=
  if mate = 1 then pr.seq1 else pr.seq2

/-- Python `pair['qual'+mate]` for `mate` "1" or "2". -/
def prQual (pr : PairRead) (mate : Nat) : String :=
  if mate = 1 then pr.qual1 else pr.qual2

/-- One aligned read as packaged by `align_family`
(`{'name':…, 'seq':…, 'qual':…}`). -/
structure AlnRead where
  name : String
  seq : String
  qual : String
deriving Repr, DecidableEq

/-- Modelled from the spec: `seqtools.transfer_gaps` (the `seqtools` module is
an external submodule, not among the Python sources).  The quality string is
transferred onto the gap pattern of the aligned sequence: positions that are
gaps in the sequence get the blank character ' ', other positions consume
successive quality characters. -/
def transferGapsList : List Char → List Char → List Char
  | _, [] => []
  | quals, c :: seq =>
    if c = '-' then ' ' :: transferGapsList quals seq
    else
      match quals with
      | [] => []
      | q :: qs => q :: transferGapsList qs seq

/-- String-level wrapper of the quality gap transfer. -/
def transferGaps (qual alignedSeq : String) : String :=
  (transferGapsList qual.toList alignedSeq.toList).asString

/-- Embedding of `align-families.py: align_family` (lines 339-359).  The
external multiple-sequence aligner (`make_msa`, dispatching to MAFFT, kalign
or the dummy) is abstracted as `msa`; its `error` outcome stands for the
`OSError` / `subprocess.CalledProcessError` failures a real aligner can raise.
A family of exactly one read is passed through verbatim without consulting
`msa`. -/
def align_family (msa : List String → Except String (List String))
    (family : List PairRead) (mate : Nat) : Except PyErr (Option (List AlnRead)) :=
  if mate ≠ 1 ∧ mate ≠ 2 then
    .error (.assertionError "assert mate == 1 or mate == 2")
  else
    match family with
    | [] => .ok none
    | fam0 :: _ =>
      let alignedE : Except String (List String) :=
        if family.length = 1 then .ok [prSeq fam0 mate]
        else msa (family.map (prSeq · mate))
      match alignedE with
      | .error e => .error (.osError e)
      | .ok aligned_seqs =>
        let quals_raw := family.map (prQual · mate)
        let qual_alignment := List.zipWith transferGaps quals_raw aligned_seqs
        .ok (some (List.zipWith
          (fun pr sq => { name := prName pr mate, seq := sq.1, qual := sq.2 : AlnRead })
          family (aligned_seqs.zip qual_alignment)))

/-- Embedding of `align-families.py: format_msa`: one tab-separated output
line per aligned read.  Python's f-string renders a `None` barcode or order as
the string "None". -/
def formatMsaLines (algn : List AlnRead) (barcode order : Option String) (mate : Nat) :
    List String :=
  algn.map (fun r =>
    barcode.getD "None" ++ "\t" ++ order.getD "None" ++ "\t" ++ toString mate ++ "\t" ++
    r.name ++ "\t" ++ r.seq ++ "\t" ++ r.qual)

/-- One `(mate, order)` combo iteration of `process_duplex`'s loop: an
`AssertionError` from `align_family` is re-raised, an aligner failure is
caught and counted (the family contributes no output but the run continues),
and a `None` alignment (empty family) is likewise only counted as a failure. -/
def afCombo (msa : List String → Except String (List String)) (barcode : Option String)
    (acc : List String × Nat) (combo : Nat × Option String × List PairRead) :
    Except PyErr (List String × Nat) :=
  match align_family msa combo.2.2 combo.1 with
  | .error (.assertionError m) => .error (.assertionError m)
  | .error (.osError _) => .ok (acc.1, acc.2 + 1)
  | .ok none => .ok (acc.1, acc.2 + 1)
  | .ok (some algn) =>
    .ok (acc.1 ++ formatMsaLines algn barcode combo.2.1 combo.1, acc.2)

/-- Embedding of `align-families.py: process_duplex` (lines 292-336),
returning the formatted output lines and the failure count.  An empty duplex
(or one holding the `None` order) returns empty output; one strand is
processed mate-by-mate; two strands are processed in the criss-cross order;
more than two strand orders raise an `AssertionError` that propagates. -/
def afProcessDuplex (msa : List String → Except String (List String))
    (duplex : List (Option String × List PairRead)) (barcode : Option String) :
    Except PyErr (List String × Nat) :=
  if duplex.length = 0 || duplex.any (fun kv => kv.1 = none) then
    .ok ([], 0)
  else
    match duplex with
    | [(o0, f0)] =>
      [(1, o0, f0), (2, o0, f0)].foldlM (afCombo msa barcode) ([], 0)
    | [(o0, f0), (o1, f1)] =>
      [(1, o0, f0), (2, o1, f1), (2, o0, f0), (1, o1, f1)].foldlM (afCombo msa barcode) ([], 0)
    | _ => .error (.assertionError "More than 2 orders in duplex")

/-! ### Streaming family grouping loops -/

/-- Python `dict` assignment `d[k] = v`: replace the value at an existing key
in place, otherwise append the new entry (dicts preserve insertion order). -/
def pyDictSet {α β : Type} [DecidableEq α] : List (α × β) → α → β → List (α × β)
  | [], k, v => [(k, v)]
  | kv :: rest, k, v =>
    if kv.1 = k then (k, v) :: rest else kv :: pyDictSet rest k v

/-- Python `line.rstrip('\r\n')`: remove trailing carriage returns and
newlines. -/
def rstripCrLf (line : String) : String :=
  ((line.toList.reverse.dropWhile (fun c => c = '\r' || c = '\n')).reverse).asString

/-- The loop state of `align-families.py: align_families`, together with the
duplex batches handed to `pool.compute` so far. -/
structure AFState where
  duplex : List (Option String × List PairRead)
  family : List PairRead
  barcode : Option String
  order : Option String
  emitted : List (List (Option String × List PairRead) × Option String)
deriving Repr, DecidableEq

/-- One line of the main loop of `align-families.py: align_families`
(lines 237-262).  A line with a tab-separated field count other than 8 is
silently skipped (the state is returned unchanged); a failing id check raises
a `ValueError`. -/
def afStep (check_ids : Bool) (st : AFState) (line : String) : Except String AFState :=
  match splitTabs (rstripCrLf line) with
  | [b, o, name1, seq1, qual1, name2, seq2, qual2] =>
    if check_ids ∧ assert_read_ids_match name1 name2 ≠ IdCheck.ok then
      .error "ValueError: read ids do not match"
    else
      let pr : PairRead := ⟨name1, seq1, qual1, name2, seq2, qual2⟩
      let st1 : AFState :=
        if some b ≠ st.barcode ∨ some o ≠ st.order then
          let duplex1 := pyDictSet st.duplex st.order st.family
          let next : List (Option String × List PairRead) ×
              List (List (Option String × List PairRead) × Option String) :=
            if some b ≠ st.barcode then
              ([], if st.barcode = none then st.emitted
                   else st.emitted ++ [(duplex1, st.barcode)])
            else (duplex1, st.emitted)
          { duplex := next.1, family := [], barcode := some b, order := some o,
            emitted := next.2 }
        else st
      .ok { st1 with family := st1.family ++ [pr] }
  | _ => .ok st

/-- Embedding of `align-families.py: align_families`: fold the line step over
the input and hand the last duplex to the pool unconditionally.  Returns the
list of `(duplex, barcode)` batches passed to `pool.compute`. -/
def align_families (check_ids : Bool) (lines : List String) :
    Except String (List (List (Option String × List PairRead) × Option String)) :=
  match lines.foldlM (afStep check_ids) (⟨[], [], none, none, []⟩ : AFState) with
  | .error e => .error e
  | .ok st =>
    let duplex1 := pyDictSet st.duplex st.order st.family
    .ok (st.emitted ++ [(duplex1, st.barcode)])

/-- The loop state of `make-consensi.py: process_families`, together with the
duplex batches handed to `pool.compute` so far. -/
structure MCState where
  duplex : List (OrderMate × List MCRead)
  family : List MCRead
  barcode : Option String
  order : Option String
  mate : Option Int
  emitted : List (List (OrderMate × List MCRead) × Option String)
deriving Repr, DecidableEq

/-- Python `duplex[(order, mate)] = family`, guarded by
`if order is not None and mate is not None`. -/
def mcStore (st : MCState) : List (OrderMate × List MCRead) :=
  match st.order, st.mate with
  | some o, some m => pyDictSet st.duplex (o, m) st.family
  | _, _ => st.duplex

/-- One line of the main loop of `make-consensi.py: process_families`
(lines 277-307).  Comment lines and lines with a tab-separated field count
other than 6 are silently skipped; a non-integer mate column raises a
`ValueError`; the `assert len(duplex) <= 4` check can raise. -/
def mcStep (st : MCState) (line : String) : Except String MCState :=
  if strStartsWithChar line '#' then .ok st
  else
    match splitTabs (rstripCrLf line) with
    | [b, o, mate_str, name, seq, qual] =>
      match mate_str.toInt? with
      | none => .error "ValueError: invalid literal for int()"
      | some m =>
        let this_mate : Int := m - 1
        let read : MCRead := ⟨name, seq, qual⟩
        if some b ≠ st.barcode ∨ some o ≠ st.order ∨ some this_mate ≠ st.mate then
          let duplex1 := mcStore st
          if some b ≠ st.barcode ∧ st.barcode ≠ none then
            if duplex1.length > 4 then
              .error "AssertionError: len(duplex) <= 4"
            else
              .ok { duplex := [], family := [read], barcode := some b, order := some o,
                    mate := some this_mate, emitted := st.emitted ++ [(duplex1, st.barcode)] }
          else
            .ok { duplex := duplex1, family := [read], barcode := some b, order := some o,
                  mate := some this_mate, emitted := st.emitted }
        else
          .ok { st with family := st.family ++ [read] }
    | _ => .ok st

/-- Embedding of `make-consensi.py: process_families`: fold the line step over
the input, then store and hand off the last duplex unconditionally.  Returns
the list of `(duplex, barcode)` batches passed to `pool.compute`. -/
def process_families (lines : List String) :
    Except String (List (List (OrderMate × List MCRead) × Option String)) :=
  match lines.foldlM mcStep (⟨[], [], none, none, none, []⟩ : MCState) with
  | .error e => .error e
  | .ok st =>
    let duplex1 := mcStore st
    if duplex1.length > 4 then .error "AssertionError: len(duplex) <= 4"
    else .ok (st.emitted ++ [(duplex1, st.barcode)])

/-! ### Structured family parsing (`dunovo_parsers.py`) -/

/-- `dunovo_parsers.ReadFamily`: a set of reads with the same mate, order and
barcode (the `Read` record of `bfx.getreads` has the same three fields as
`MCRead`). -/
structure ReadFamily where
  mate : Nat
  reads : List MCRead
deriving Repr, DecidableEq

/-- `dunovo_parsers.StrandFamily`: the two mates for one strand order. -/
structure StrandFamily where
  order : String
  mate1 : ReadFamily
  mate2 : ReadFamily
deriving Repr, DecidableEq

/-- `dunovo_parsers.BarFamily`: the two strand families for one barcode. -/
structure BarFamily where
  bar : String
  ab : StrandFamily
  ba : StrandFamily
deriving Repr, DecidableEq

/-- The loop body of `dunovo_parsers.create_strand_family`: unpack the eight
fields, validate the order and the order-consistency assertion, and collect
the two reads. -/
def csfStep (acc : List MCRead × List MCRead × Option String) (fields : List String) :
    Except String (List MCRead × List MCRead × Option String) :=
  match fields with
  | [_, order, name1, seq1, quals1, name2, seq2, quals2] =>
    if order ≠ "ab" ∧ order ≠ "ba" then
      .error "DunovoFormatError: Invalid order"
    else if acc.2.2 ≠ none ∧ acc.2.2 ≠ some order then
      .error "AssertionError: order == last_order or last_order is None"
    else
      .ok (acc.1 ++ [⟨name1, seq1, quals1⟩], acc.2.1 ++ [⟨name2, seq2, quals2⟩], some order)
  | _ => .error "ValueError: not enough values to unpack"

/-- Embedding of `dunovo_parsers.create_strand_family`.  An empty line list
leaves Python's `order` variable unbound (`UnboundLocalError`). -/
def create_strand_family (strand_family_lines : List (List String)) :
    Except String StrandFamily :=
  match strand_family_lines.foldlM csfStep ([], [], none) with
  | .error e => .error e
  | .ok (read1s, read2s, last_order) =>
    match last_order with
    | none => .error "UnboundLocalError: order"
    | some order => .ok ⟨order, ⟨1, read1s⟩, ⟨2, read2s⟩⟩

/-- Embedding of `dunovo_parsers.create_bar_family`: asserts one or two raw
strand families, slots them by order (later entries overwrite earlier ones)
and fills missing slots with empty strand families. -/
def create_bar_family (strand_families_raw : List StrandFamily) (barcode : String) :
    Except String BarFamily :=
  if strand_families_raw.length < 1 ∨ 2 < strand_families_raw.length then
    .error "AssertionError: 1 <= len(strand_families_raw) <= 2"
  else
    let ab := ((strand_families_raw.filter (fun sf => sf.order = "ab")).getLast?).getD
      ⟨"ab", ⟨1, []⟩, ⟨2, []⟩⟩
    let ba := ((strand_families_raw.filter (fun sf => sf.order = "ba")).getLast?).getD
      ⟨"ba", ⟨1, []⟩, ⟨2, []⟩⟩
    .ok ⟨barcode, ab, ba⟩

/-- The loop state of `dunovo_parsers.parse_make_families`, with the
`BarFamily` values yielded so far. -/
structure PMFState where
  strand_families : List StrandFamily
  strand_family_lines : List (List String)
  last_barcode : Option String
  last_order : Option String
  yielded : List BarFamily
deriving Repr, DecidableEq

/-- One line of `dunovo_parsers.parse_make_families` (non-prepended mode,
8 expected columns).  Unlike the main loops of `align-families.py` and
`make-consensi.py`, a line with the wrong column count raises a
`DunovoFormatError` instead of being skipped. -/
def pmfStep (st : PMFState) (line : String) : Except String PMFState :=
  let fields := splitTabs (rstripCrLf line)
  if fields.length ≠ 8 then
    .error "DunovoFormatError: Line has an invalid number of columns"
  else
    match fields with
    | barcode :: order :: _ =>
      let stepA : Except String (List StrandFamily × List (List String)) :=
        if some barcode ≠ st.last_barcode ∨ some order ≠ st.last_order then
          if st.last_order ≠ none then
            match create_strand_family st.strand_family_lines with
            | .error e => .error e
            | .ok sf => .ok (st.strand_families ++ [sf], [])
          else .ok (st.strand_families, [])
        else .ok (st.strand_families, st.strand_family_lines)
      match stepA with
      | .error e => .error e
      | .ok (sfs1, sfl1) =>
        let stepB : Except String (List StrandFamily × List BarFamily) :=
          if some barcode ≠ st.last_barcode then
            match st.last_barcode with
            | some lb =>
              match create_bar_family sfs1 lb with
              | .error e => .error e
              | .ok bf => .ok ([], st.yielded ++ [bf])
            | none => .ok ([], st.yielded)
          else .ok (sfs1, st.yielded)
        match stepB with
        | .error e => .error e
        | .ok (sfs2, yielded2) =>
          .ok { strand_families := sfs2, strand_family_lines := sfl1 ++ [fields],
                last_barcode := some barcode, last_order := some order,
                yielded := yielded2 }
    | _ => .error "DunovoFormatError: Line has an invalid number of columns"

/-- Embedding of `dunovo_parsers.parse_make_families` (non-prepended mode):
fold the line step, then flush the trailing strand family and bar family.
Returns the list of `BarFamily` values the generator yields. -/
def parse_make_families (lines : List String) : Except String (List BarFamily) :=
  match lines.foldlM pmfStep (⟨[], [], none, none, []⟩ : PMFState) with
  | .error e => .error e
  | .ok st =>
    let flushA : Except String (List StrandFamily) :=
      if st.last_order ≠ none then
        match create_strand_family st.strand_family_lines with
        | .error e => .error e
        | .ok sf => .ok (st.strand_families ++ [sf])
      else .ok st.strand_families
    match flushA with
    | .error e => .error e
    | .ok sfs =>
      match st.last_barcode with
      | some lb =>
        match create_bar_family sfs lb with
        | .error e => .error e
        | .ok bf => .ok (st.yielded ++ [bf])
      | none => .ok st.yielded

/-! ### Barcode correction table (`correct.py: make_correction_table`) -/

/-- The `--choose-by` policy of `correct.py`. -/
inductive ChooseBy where
  | count
  | connect
deriving Repr, DecidableEq

/-- The neighbours of a barcode in the undirected barcode graph, given as an
edge list (`networkx.Graph` stores each unordered edge once and has no
parallel edges, hence the dedup). -/
def nxNeighbors (edges : List (String × String)) (b : String) : List String :=
  (edges.filterMap (fun e =>
    if e.1 = b then some e.2 else if e.2 = b then some e.1 else none)).dedup

/-- The degree of a barcode within the subgraph induced by one component
(`graph.degree()` on `meta_graph.subgraph(nodes)`). -/
def nxDegree (edges : List (String × String)) (comp : List String) (b : String) : Nat :=
  ((nxNeighbors edges b).filter (fun n => n ∈ comp)).length

/-- Python `sorted(nodes, key=key, reverse=True)`: a stable sort in descending
order of the key. -/
def sortDescBy (key : String → Nat) (l : List String) : List String :=
  List.insertionSort (fun a b => key b ≤ key a) l

/-- The scoring key selected by `make_correction_table`: total read-pair count
(`family_counts[bar]['all']`, abstracted as the total function `fc`) for the
"count" policy, subgraph degree for the "connect" policy. -/
def componentKey (choose_by : ChooseBy) (fc : String → Nat)
    (edges : List (String × String)) (comp : List String) : String → Nat :=
  match choose_by with
  | .count => fc
  | .connect => nxDegree edges comp

/-- The inner loop of `make_correction_table`: every barcode of the sorted
component other than the chosen one is mapped to the chosen one. -/
def assignCorrections (correct : String) (cs : List (String × String)) :
    List String → List (String × String)
  | [] => cs
  | b :: bs =>
    assignCorrections correct (if b ≠ correct then pyDictSet cs b correct else cs) bs

/-- One component iteration of `make_correction_table`: sort the component's
barcodes in descending key order, take the top element as the correct barcode
and map the others to it. -/
def processComponent (key : String → Nat) (cs : List (String × String))
    (comp : List String) : List (String × String) :=
  match sortDescBy key comp with
  | [] => cs
  | correct :: rest => assignCorrections correct cs (correct :: rest)

/-- Embedding of `correct.py: make_correction_table` (lines 393-412).  The
connected components of the barcode graph are computed by the external
`networkx` library, so they are taken here as an input (a list of node lists,
each in the graph's node order). -/
def make_correction_table (choose_by : ChooseBy) (fc : String → Nat)
    (edges : List (String × String)) (components : List (List String)) :
    List (String × String) :=
  components.foldl
    (fun cs comp => processComponent (componentKey choose_by fc edges comp) cs comp) []

/-! ### Family counting (`correct.py: get_family_counts`) -/

/-- The per-family counter dict of `get_family_counts`
(`{'ab':…, 'ba':…}`, with `'all'` filled in at the family boundary). -/
structure FamCounts where
  ab : Nat
  ba : Nat
  all : Nat
deriving Repr, DecidableEq

/-- The loop state of `get_family_counts`: the table built so far, the last
barcode seen, and the running counter of the current family (`None` before the
first line). -/
structure GFCState where
  family_counts : List (Option String × Option FamCounts)
  last_barcode : Option String
  cur : Option FamCounts
deriving Repr, DecidableEq

/-- The family-boundary finalisation of `get_family_counts`: Python's
`if this_family_counts: this_family_counts['all'] = …` (a counter dict is
always truthy, `None` is not). -/
def finishOpt : Option FamCounts → Option FamCounts
  | some c => some { c with all := c.ab + c.ba }
  | none => none

/-- One record of the loop of `correct.py: get_family_counts` (lines 353-368),
at the level of already tab-split fields.  Missing fields raise an
`IndexError`, a failing id check raises a `ValueError`, an order other than
"ab"/"ba" raises a `KeyError`. -/
def gfcStepFields (check_ids : Bool) (st : GFCState) (fields : List String) :
    Except String GFCState :=
  match fields with
  | barcode :: order :: rest =>
    let idsOk : Except String Unit :=
      if check_ids then
        match rest[0]?, rest[3]? with
        | some name1, some name2 =>
          if assert_read_ids_match name1 name2 ≠ IdCheck.ok then
            .error "ValueError: read ids do not match"
          else .ok ()
        | _, _ => .error "IndexError: list index out of range"
      else .ok ()
    match idsOk with
    | .error e => .error e
    | .ok () =>
      let st1 : GFCState :=
        if some barcode ≠ st.last_barcode then
          { family_counts := pyDictSet st.family_counts st.last_barcode (finishOpt st.cur),
            last_barcode := some barcode, cur := some ⟨0, 0, 0⟩ }
        else st
      match st1.cur with
      | none => .error "TypeError: NoneType"
      | some c =>
        if order = "ab" then .ok { st1 with cur := some { c with ab := c.ab + 1 } }
        else if order = "ba" then .ok { st1 with cur := some { c with ba := c.ba + 1 } }
        else .error "KeyError: order"
  | _ => .error "IndexError: list index out of range"

/-- The record loop of `get_family_counts`, threading the state through the
records until the first raised error. -/
def gfcLoop (check_ids : Bool) : GFCState → List (List String) → Except String GFCState
  | st, [] => .ok st
  | st, r :: rs =>
    match gfcStepFields check_ids st r with
    | .error e => .error e
    | .ok st' => gfcLoop check_ids st' rs

/-- The final flush of `get_family_counts`: finish the trailing family's
counter (a `TypeError` on empty input, where it is still `None`) and store
it. -/
def gfcFinish (st : GFCState) : Except String (List (Option String × Option FamCounts)) :=
  match st.cur with
  | none => .error "TypeError: NoneType"
  | some c =>
    .ok (pyDictSet st.family_counts st.last_barcode (some { c with all := c.ab + c.ba }))

/-- Embedding of `correct.py: get_family_counts` over pre-split records.
Returns the family-counts table and the number of read pairs. -/
def get_family_counts_fields (check_ids : Bool) (records : List (List String)) :
    Except String (List (Option String × Option FamCounts) × Nat) :=
  match gfcLoop check_ids (⟨[], none, none⟩ : GFCState) records with
  | .error e => .error e
  | .ok st =>
    match gfcFinish st with
    | .error e => .error e
    | .ok table => .ok (table, records.length)

/-- Embedding of `correct.py: get_family_counts` (lines 347-372) over raw
lines. -/
def get_family_counts (check_ids : Bool) (lines : List String) :
    Except String (List (Option String × Option FamCounts) × Nat) :=
  get_family_counts_fields check_ids (lines.map (fun line => splitTabs (rstripCrLf line)))

/-- A simple global-alignment stand-in used for concrete evaluation: pad the
shorter sequence with trailing gaps to equal length. -/
def padAligner (s1 s2 : String) : Option PairAln :=
  let n := max s1.length s2.length
  some ⟨(s1.toList ++ List.replicate (n - s1.length) '-').asString,
        (s2.toList ++ List.replicate (n - s2.length) '-').asString⟩

/-- A concrete SSCS map in which every `(order, mate)` slot is present but the
(ab, mate-1) consensus sequence is empty. -/
def exSscss : List (OrderMate × Sscs) :=
  [(("ab", 0), ⟨"", "ab", 0, 3⟩), (("ba", 1), ⟨"AC", "ba", 1, 2⟩),
   (("ab", 1), ⟨"AC", "ab", 1, 3⟩), (("ba", 0), ⟨"AC", "ba", 0, 2⟩)]

/-! ### Grouped-input apparatus for reasoning about `get_family_counts` -/

/-- A barcode-grouped record stream (the shape of barcode-sorted input): each
group is a barcode together with the `(order, remaining-fields)` of its
lines; the records are the groups' lines in order. -/
def recordsOfGroups : List (String × List (String × List String)) → List (List String)
  | [] => []
  | g :: rest => g.2.map (fun it => g.1 :: it.1 :: it.2) ++ recordsOfGroups rest

/-- The number of lines of one group carrying the given order. -/
def cntOrder (o : String) (items : List (String × List String)) : Nat :=
  (items.filter (fun it => it.1 = o)).length

/-- The running counter of a family mid-stream (`'all'` not yet filled in). -/
def groupCounts (items : List (String × List String)) : FamCounts :=
  ⟨cntOrder "ab" items, cntOrder "ba" items, 0⟩

/-- The finished counter of a family. -/
def finCounts (items : List (String × List String)) : FamCounts :=
  ⟨cntOrder "ab" items, cntOrder "ba" items,
   cntOrder "ab" items + cntOrder "ba" items⟩

/-- The record loop of `get_family_counts` followed by its final flush. -/
def gfcRun (check_ids : Bool) (st : GFCState) (records : List (List String)) :
    Except String (List (Option String × Option FamCounts)) :=
  match gfcLoop check_ids st records with
  | .error e => .error e
  | .ok st' => gfcFinish st'

/-- The closed form of the table `get_family_counts` builds over a grouped
stream, starting from an intermediate state. -/
def gfcExpected : List (Option String × Option FamCounts) → Option String →
    Option FamCounts → List (String × List (String × List String)) →
    List (Option String × Option FamCounts)
  | t, last, cur, [] => pyDictSet t last (finishOpt cur)
  | t, last, cur, g :: rest =>
    gfcExpected (pyDictSet t last (finishOpt cur)) (some g.1)
      (some (groupCounts g.2)) rest

/-! ## Theorems -/

/-- C1: For every pair of equal-length aligned single-strand consensus
sequences, the duplex consensus is computed column by column: if both sides
are the same concrete base, that base is emitted; if exactly one side is a gap
and the other a concrete base, 'N' is emitted; if either side is 'N', 'N' is
emitted; if the two sides are different concrete bases, the IUPAC two-base
ambiguity code covering both (e.g. 'W' for A/T) is emitted. -/
theorem duplex_merge_columnwise (cons1 cons2 : List Char)
    (hlen : cons1.length = cons2.length) :
    (build_consensus_duplex_simple cons1 cons2).length = cons1.length ∧
    ∀ (i : Nat) (c1 c2 o : Char), cons1[i]? = some c1 → cons2[i]? = some c2 →
      (build_consensus_duplex_simple cons1 cons2)[i]? = some o →
      ((isBase c1 = true ∧ c1 = c2) → o = c1) ∧
      ((c1 = '-' ∧ isBase c2 = true) → o = 'N') ∧
      ((isBase c1 = true ∧ c2 = '-') → o = 'N') ∧
      ((c1 = 'N' ∨ c2 = 'N') → o = 'N') ∧
      (isBase c1 = true → isBase c2 = true → c1 ≠ c2 →
        ((c1 = 'A' ∧ c2 = 'T') ∨ (c1 = 'T' ∧ c2 = 'A') → o = 'W') ∧
        ((c1 = 'A' ∧ c2 = 'C') ∨ (c1 = 'C' ∧ c2 = 'A') → o = 'M') ∧
        ((c1 = 'A' ∧ c2 = 'G') ∨ (c1 = 'G' ∧ c2 = 'A') → o = 'R') ∧
        ((c1 = 'C' ∧ c2 = 'G') ∨ (c1 = 'G' ∧ c2 = 'C') → o = 'S') ∧
        ((c1 = 'C' ∧ c2 = 'T') ∨ (c1 = 'T' ∧ c2 = 'C') → o = 'Y') ∧
        ((c1 = 'G' ∧ c2 = 'T') ∨ (c1 = 'T' ∧ c2 = 'G') → o = 'K')) := by
  constructor
  · simp [build_consensus_duplex_simple, List.length_zipWith, hlen]
  · intro i c1 c2 o h1 h2 ho
    have hm : o = mergeBase c1 c2 := by
      rw [build_consensus_duplex_simple] at ho
      rcases (List.getElem?_zipWith_eq_some ..).mp ho with ⟨x, y, hx, hy, hxy⟩
      rw [h1] at hx
      rw [h2] at hy
      cases hx
      cases hy
      exact hxy.symm
    subst hm
    refine ⟨?_, ?_, ?_, ?_, ?_⟩
    · rintro ⟨_, rfl⟩
      simp [mergeBase]
    · rintro ⟨rfl, hb⟩
      simp only [isBase, Bool.or_eq_true, decide_eq_true_eq] at hb
      rcases hb with ((rfl | rfl) | rfl) | rfl <;> decide
    · rintro ⟨hb, rfl⟩
      simp only [isBase, Bool.or_eq_true, decide_eq_true_eq] at hb
      rcases hb with ((rfl | rfl) | rfl) | rfl <;> decide
    · rintro (rfl | rfl)
      · by_cases hc : ('N' : Char) = c2
        · subst hc; decide
        · simp [mergeBase, hc]
      · by_cases hc : c1 = 'N'
        · subst hc; decide
        · simp [mergeBase, hc]
    · intro hb1 hb2 hne
      simp only [isBase, Bool.or_eq_true, decide_eq_true_eq] at hb1 hb2
      rcases hb1 with ((rfl | rfl) | rfl) | rfl <;> rcases hb2 with ((rfl | rfl) | rfl) | rfl <;>
        first
          | exact absurd rfl hne
          | decide

/-- Witness for C1 at the spec's duplex scenario: merging "GATTACA" with
"GATTTCA" (equal lengths). -/
theorem duplex_merge_columnwise_witness :
    "GATTACA".toList.length = "GATTTCA".toList.length ∧
    (build_consensus_duplex_simple "GATTACA".toList "GATTTCA".toList).length =
      "GATTACA".toList.length :=
  ⟨by decide, (duplex_merge_columnwise "GATTACA".toList "GATTTCA".toList (by decide)).1⟩

/-- C4: `is_alignment_reversed` returns `true` iff the Smith-Waterman score of
barcode1 against the half-swapped rotation of barcode2 (second half before
first half, split at `len(barcode2) // 2`) is strictly greater than against
barcode2 unrotated; equal scores give `false`; and in the per-line correction
of `print_corrected_output`, the alignment check is only consulted for
corrected barcodes where the raw or the canonical barcode is in the
reversed-barcodes set (otherwise the output does not depend on the scorer at
all). -/
theorem alignment_reversal_spec (sw : String → String → Int)
    (barcode1 barcode2 : String) :
    (is_alignment_reversed sw barcode1 barcode2 = true ↔
      sw barcode1 ((barcode2.toList.drop (barcode2.length / 2) ++
        barcode2.toList.take (barcode2.length / 2)).asString) > sw barcode1 barcode2) ∧
    (sw barcode1 (halfSwapped barcode2) = sw barcode1 barcode2 →
      is_alignment_reversed sw barcode1 barcode2 = false) ∧
    (∀ corrections reversed_barcodes prepend fields (sw2 : String → String → Int),
      (∀ raw order rest, fields = raw :: order :: rest →
        dictGet corrections raw = none ∨
        (raw ∉ reversed_barcodes ∧
          ∀ c, dictGet corrections raw = some c → c ∉ reversed_barcodes)) →
      correctLine corrections reversed_barcodes sw prepend fields =
        correctLine corrections reversed_barcodes sw2 prepend fields) := by
  refine ⟨?_, ?_, ?_⟩
  · rw [is_alignment_reversed, halfSwapped]
    split
    · simp_all
    · simp_all
  · intro h
    rw [is_alignment_reversed]
    simp [h]
  · intro corrections reversed_barcodes prepend fields sw2 hg
    match fields with
    | [] => rfl
    | [_] => rfl
    | raw :: order :: rest =>
      rcases hg raw order rest rfl with hnone | ⟨hraw, hcanon⟩
      · simp [correctLine, hnone]
      · rw [correctLine, correctLine]
        cases hdg : dictGet corrections raw with
        | none => rfl
        | some c =>
          have hc := hcanon c hdg
          simp [hdg, hraw, hc]

/-- Witness for C4: a constant scorer gives equal forward and rotated scores,
so the barcode is not declared reversed. -/
theorem alignment_reversal_witness :
    is_alignment_reversed (fun _ _ => (0 : Int)) "AACC" "CCAA" = false :=
  (alignment_reversal_spec (fun _ _ => (0 : Int)) "AACC" "CCAA").2.1 rfl

/-- C7: when ID checking is enabled, a record passes iff the first
whitespace-separated tokens of the two read names are equal after stripping a
trailing "/1" from mate 1's id and a trailing "/2" from mate 2's id;
otherwise an error is raised, and the specific case where the stripped mate-1
id ends in "/2" while the stripped mate-2 id ends in "/1" raises the distinct
swapped-mates error rather than the generic mismatch. -/
theorem read_id_check_spec (name1 name2 t1 t2 : String)
    (h1 : firstToken name1 = some t1) (h2 : firstToken name2 = some t2) :
    (stripMate1 t1 = stripMate2 t2 → assert_read_ids_match name1 name2 = .ok) ∧
    (stripMate1 t1 ≠ stripMate2 t2 →
      assert_read_ids_match name1 name2 ≠ .ok ∧
      ((strEndsWith (stripMate1 t1) "/2" = true ∧
        strEndsWith (stripMate2 t2) "/1" = true) →
        assert_read_ids_match name1 name2 = .swappedMates) ∧
      (¬(strEndsWith (stripMate1 t1) "/2" = true ∧
         strEndsWith (stripMate2 t2) "/1" = true) →
        assert_read_ids_match name1 name2 = .mismatch)) := by
  unfold assert_read_ids_match
  rw [h1, h2]
  constructor
  · intro heq
    simp [heq]
  · intro hne
    refine ⟨?_, ?_, ?_⟩
    · by_cases hsw : (strEndsWith (stripMate1 t1) "/2" && strEndsWith (stripMate2 t2) "/1") = true
      · simp [hne, hsw]
      · simp [hne, hsw]
    · intro ⟨hs1, hs2⟩
      simp [hne, hs1, hs2]
    · intro hn
      rw [Classical.not_and_iff_or_not_not] at hn
      rcases hn with hn | hn
      · simp only [Bool.not_eq_true] at hn
        simp [hne, hn]
      · simp only [Bool.not_eq_true] at hn
        simp [hne, hn]

/-- Witness for C7: names "readA/1 x" and "readA/2 y" strip to the same id and
pass the check. -/
theorem read_id_check_witness :
    assert_read_ids_match "readA/1 x" "readA/2 y" = .ok :=
  (read_id_check_spec "readA/1 x" "readA/2 y" "readA/1" "readA/2"
    (by decide) (by decide)).1 (by decide)

/-- C5: a family of exactly one read is passed through verbatim by
`align_family`: the aligned sequence equals the sole read's sequence, and the
external multiple-sequence aligner is never consulted (the result is the same
for any two aligners). -/
theorem single_read_family_verbatim
    (msa1 msa2 : List String → Except String (List String))
    (family : List PairRead) (pr : PairRead) (mate : Nat)
    (hfam : family = [pr]) (hmate : mate = 1 ∨ mate = 2) :
    align_family msa1 family mate =
      .ok (some [{ name := prName pr mate, seq := prSeq pr mate,
                   qual := transferGaps (prQual pr mate) (prSeq pr mate) }]) ∧
    align_family msa1 family mate = align_family msa2 family mate := by
  subst hfam
  have hm : ¬(mate ≠ 1 ∧ mate ≠ 2) := by
    rcases hmate with rfl | rfl <;> simp
  have key : ∀ msa : List String → Except String (List String),
      align_family msa [pr] mate =
        .ok (some [{ name := prName pr mate, seq := prSeq pr mate,
                     qual := transferGaps (prQual pr mate) (prSeq pr mate) }]) := by
    intro msa
    simp [align_family, hm]
  exact ⟨key msa1, (key msa1).trans (key msa2).symm⟩

/-- Witness for C5: a concrete one-read family under an aligner that always
fails; the read's sequence "ACGT" comes through verbatim. -/
theorem single_read_family_verbatim_witness :
    align_family (fun _ => .error "aligner runs would fail")
      [⟨"r/1", "ACGT", "IIII", "r/2", "TGCA", "JJJJ"⟩] 1 =
      .ok (some [⟨"r/1", "ACGT", "IIII"⟩]) :=
  ((single_read_family_verbatim (fun _ => .error "aligner runs would fail")
    (fun _ => .ok []) _ ⟨"r/1", "ACGT", "IIII", "r/2", "TGCA", "JJJJ"⟩ 1 rfl
    (Or.inl rfl)).1).trans (by rfl)

/-- For a duplex mate whose `dcsForMate` result is a record, both required
SSCS halves were found in the map. -/
theorem dcsForMate_ok_some (aligner : String → String → Option PairAln)
    (sscss : List (OrderMate × Sscs)) (dm : Nat) (d : Dcs)
    (hdm : dm = 0 ∨ dm = 1)
    (h : dcsForMate aligner sscss dm = .ok (some d)) :
    ∀ om ∈ ordermates dm, ∃ s, List.lookup om sscss = some s := by
  rcases hdm with rfl | rfl <;>
    rcases hdm2 : List.lookup ("ab", (0 : Int)) sscss with _ | s1 <;>
    rcases hdm3 : List.lookup ("ba", (1 : Int)) sscss with _ | s2 <;>
    rcases hdm4 : List.lookup ("ab", (1 : Int)) sscss with _ | s3 <;>
    rcases hdm5 : List.lookup ("ba", (0 : Int)) sscss with _ | s4 <;>
    simp_all [dcsForMate, ordermates]

/-- C2 (amended): whenever `make_dcss` returns normally, a missing half of
either required SSCS pair forces the empty list (no single-strand fallback),
and the result always holds zero or exactly two duplex records. -/
theorem make_dcss_pair_completeness
    (aligner : String → String → Option PairAln) (sscss : List (OrderMate × Sscs))
    (l : List Dcs) (hok : make_dcss aligner sscss = .ok l) :
    ((List.lookup ("ab", (0 : Int)) sscss = none ∨
      List.lookup ("ba", (1 : Int)) sscss = none ∨
      List.lookup ("ab", (1 : Int)) sscss = none ∨
      List.lookup ("ba", (0 : Int)) sscss = none) → l = []) ∧
    (l.length = 0 ∨ l.length = 2) := by
  rw [make_dcss] at hok
  cases h0 : dcsForMate aligner sscss 0 with
  | error e => rw [h0] at hok; cases hok
  | ok o0 =>
    cases o0 with
    | none =>
      rw [h0] at hok
      cases hok
      exact ⟨fun _ => rfl, Or.inl rfl⟩
    | some d0 =>
      cases h1 : dcsForMate aligner sscss 1 with
      | error e => rw [h0, h1] at hok; cases hok
      | ok o1 =>
        cases o1 with
        | none =>
          rw [h0, h1] at hok
          cases hok
          exact ⟨fun _ => rfl, Or.inl rfl⟩
        | some d1 =>
          rw [h0, h1] at hok
          cases hok
          have c0 := dcsForMate_ok_some aligner sscss 0 d0 (Or.inl rfl) h0
          have c1 := dcsForMate_ok_some aligner sscss 1 d1 (Or.inr rfl) h1
          refine ⟨?_, Or.inr rfl⟩
          intro hmiss
          exfalso
          rcases hmiss with hm | hm | hm | hm
          · rcases c0 ("ab", 0) (by simp [ordermates]) with ⟨s, hs⟩
            rw [hm] at hs; cases hs
          · rcases c0 ("ba", 1) (by simp [ordermates]) with ⟨s, hs⟩
            rw [hm] at hs; cases hs
          · rcases c1 ("ab", 1) (by simp [ordermates]) with ⟨s, hs⟩
            rw [hm] at hs; cases hs
          · rcases c1 ("ba", 0) (by simp [ordermates]) with ⟨s, hs⟩
            rw [hm] at hs; cases hs

/-- Witness for C2: with every slot missing, `make_dcss` returns the empty
list. -/
theorem make_dcss_pair_completeness_witness :
    make_dcss (fun _ _ => none) [] = .ok [] ∧ ([] : List Dcs) = [] :=
  ⟨by rfl, (make_dcss_pair_completeness (fun _ _ => none) [] [] (by rfl)).1
    (Or.inl rfl)⟩

/-- C2 counterexample: an SSCS half that is present but empty is not treated
as missing.  With the (ab, mate-1) consensus equal to the empty string,
`make_dcss` still aligns it and returns two duplex records instead of the
empty list the claim requires for an "empty" half. -/
theorem make_dcss_empty_half_counterexample :
    List.lookup ("ab", (0 : Int)) exSscss = some ⟨"", "ab", 0, 3⟩ ∧
    make_dcss padAligner exSscss = .ok [⟨"NN", [3, 2]⟩, ⟨"AC", [3, 2]⟩] :=
  ⟨by rfl, by rfl⟩

/-- C6: a post-alignment length mismatch makes `make_dcss` raise an
`AssertionError` which `process_duplex` in `make-consensi.py` re-raises
rather than catching per-family; and more than two strand orders for one
barcode make `process_duplex` in `align-families.py` raise a propagating
`AssertionError` (its per-family handler only catches aligner `OSError`s). -/
theorem assertion_errors_propagate
    (aligner : String → String → Option PairAln) (sscss : List (OrderMate × Sscs))
    (s1 s2 : Sscs) (algn : PairAln)
    (hl1 : List.lookup ("ab", (0 : Int)) sscss = some s1)
    (hl2 : List.lookup ("ba", (1 : Int)) sscss = some s2)
    (ha : aligner s1.seq s2.seq = some algn)
    (hlen : algn.target.length ≠ algn.query.length) :
    (∃ e, make_dcss aligner sscss = .error e) ∧
    (∀ get_cons min_reads duplex, make_sscss get_cons min_reads duplex = sscss →
      ∃ e, mcProcessDuplex get_cons aligner min_reads duplex = .error e) ∧
    (∀ msa duplex barcode, 3 ≤ duplex.length →
      (∀ kv ∈ duplex, kv.1 ≠ none) →
      ∃ m, afProcessDuplex msa duplex barcode = .error (.assertionError m)) := by
  have hd : dcsForMate aligner sscss 0 =
      .error "AssertionError: len(align.target) != len(align.query)" := by
    simp [dcsForMate, ordermates, hl1, hl2, ha, hlen]
  have hmd : make_dcss aligner sscss =
      .error "AssertionError: len(align.target) != len(align.query)" := by
    rw [make_dcss, hd]
  refine ⟨⟨_, hmd⟩, ?_, ?_⟩
  · intro get_cons min_reads duplex hsscss
    refine ⟨"AssertionError: len(align.target) != len(align.query)", ?_⟩
    rw [mcProcessDuplex]
    rw [hsscss, hmd]
  · intro msa duplex barcode hlen3 hnone
    match duplex, hlen3, hnone with
    | (o0, f0) :: (o1, f1) :: (o2, f2) :: rest, _, hnone =>
      have hany : (((o0, f0) :: (o1, f1) :: (o2, f2) :: rest).any
          (fun kv => kv.1 = none)) = false := by
        rw [List.any_eq_false]
        intro kv hkv
        simpa using hnone kv hkv
      refine ⟨"More than 2 orders in duplex", ?_⟩
      rw [afProcessDuplex]
      rw [hany]
      · rfl
      · intro _ _ h
        simp at h
      · intro _ _ _ _ h
        simp at h

/-- Witness for C6: a concrete aligner returning sequences of unequal lengths
makes `make_dcss` fail. -/
theorem assertion_errors_propagate_witness :
    ∃ e, make_dcss (fun _ _ => some ⟨"A", "AA"⟩)
      [(("ab", 0), ⟨"A", "ab", 0, 3⟩), (("ba", 1), ⟨"A", "ba", 1, 2⟩)] = .error e :=
  (assertion_errors_propagate (fun _ _ => some ⟨"A", "AA"⟩)
    [(("ab", 0), ⟨"A", "ab", 0, 3⟩), (("ba", 1), ⟨"A", "ba", 1, 2⟩)]
    ⟨"A", "ab", 0, 3⟩ ⟨"A", "ba", 1, 2⟩ ⟨"A", "AA"⟩
    (by rfl) (by rfl) rfl (by decide)).1

/-- C9: every line emitted by the corrected-output rewrite keeps all fields
other than the barcode (column 1) and order (column 2) identical to the
input; in prepend mode the corrected pair is inserted in front with every
original column retained; and a line whose barcode is not in the correction
map keeps its barcode and order unchanged. -/
theorem corrected_output_frame (corrections : List (String × String))
    (reversed_barcodes : List String) (sw : String → String → Int)
    (fields : List String) (raw order : String) (rest : List String)
    (hf : fields = raw :: order :: rest) :
    (∃ cb co, correctLine corrections reversed_barcodes sw false fields =
        some (cb :: co :: rest) ∧
      correctLine corrections reversed_barcodes sw true fields =
        some (cb :: co :: raw :: order :: rest)) ∧
    (dictGet corrections raw = none →
      correctLine corrections reversed_barcodes sw false fields = some fields ∧
      correctLine corrections reversed_barcodes sw true fields =
        some (raw :: order :: fields)) := by
  subst hf
  constructor
  · exact ⟨_, _, rfl, rfl⟩
  · intro hnone
    constructor
    · simp [correctLine, hnone]
    · simp [correctLine, hnone]

/-- Witness for C9: an uncorrected line is emitted unchanged. -/
theorem corrected_output_frame_witness :
    correctLine [] [] (fun _ _ => (0 : Int)) false
      ["AAAA", "ab", "n1", "ACGT", "II", "n2", "TGCA", "JJ"] =
      some ["AAAA", "ab", "n1", "ACGT", "II", "n2", "TGCA", "JJ"] :=
  ((corrected_output_frame [] [] (fun _ _ => (0 : Int)) _ "AAAA" "ab"
    ["n1", "ACGT", "II", "n2", "TGCA", "JJ"] rfl).2 (by rfl)).1

/-- C8 (amended): in the main loops of `align-families.py` (8 columns) and
`make-consensi.py` (6 columns), a line with the wrong tab-separated field
count is silently skipped — the grouping state is unchanged and no error is
raised — but `dunovo_parsers.parse_make_families` instead raises a
`DunovoFormatError` on such a line. -/
theorem malformed_line_handling (line : String) :
    ((splitTabs (rstripCrLf line)).length ≠ 8 →
      ∀ check_ids st, afStep check_ids st line = .ok st) ∧
    ((splitTabs (rstripCrLf line)).length ≠ 6 →
      ∀ st, mcStep st line = .ok st) ∧
    ((splitTabs (rstripCrLf line)).length ≠ 8 →
      ∀ st, ∃ e, pmfStep st line = .error e) := by
  refine ⟨?_, ?_, ?_⟩
  · intro hlen check_ids st
    rw [afStep]
    split
    · rename_i heq
      rw [heq] at hlen
      simp at hlen
    · rfl
  · intro hlen st
    rw [mcStep]
    by_cases hh : strStartsWithChar line '#' = true
    · rw [if_pos hh]
    · rw [if_neg hh]
      split
      · rename_i heq
        rw [heq] at hlen
        simp at hlen
      · rfl
  · intro hlen st
    refine ⟨"DunovoFormatError: Line has an invalid number of columns", ?_⟩
    rw [pmfStep]
    rw [if_pos hlen]

/-- Witness for C8: a two-column line leaves the initial
`align-families.py` loop state untouched. -/
theorem malformed_line_handling_witness :
    afStep true (⟨[], [], none, none, []⟩ : AFState) "AAAA\tab" =
      .ok (⟨[], [], none, none, []⟩ : AFState) :=
  (malformed_line_handling "AAAA\tab").1 (by decide) true ⟨[], [], none, none, []⟩

/-- C8 counterexample: `parse_make_families` does not silently skip a line
with the wrong column count — it raises a `DunovoFormatError`, aborting the
parse, contrary to the claim that such lines never abort the run. -/
theorem parse_malformed_counterexample :
    (splitTabs (rstripCrLf "AAAA\tab")).length ≠ 8 ∧
    parse_make_families ["AAAA\tab"] =
      .error "DunovoFormatError: Line has an invalid number of columns" :=
  ⟨by decide, by rfl⟩

/-- Python `dict` lookup after `d[k'] = v`: the new key maps to the new value
and all other keys are unchanged. -/
theorem pyDictSet_lookup {α β : Type} [DecidableEq α] (l : List (α × β)) (k k' : α) (v : β) :
    List.lookup k (pyDictSet l k' v) = if k = k' then some v else List.lookup k l := by
  induction l with
  | nil =>
    by_cases h : k = k'
    · subst h
      simp [pyDictSet]
    · simp [pyDictSet, List.lookup_cons, beq_false_of_ne h, h]
  | cons kv rest ih =>
    obtain ⟨a, b⟩ := kv
    by_cases h1 : a = k'
    · subst h1
      by_cases h2 : k = a
      · subst h2
        simp [pyDictSet, List.lookup_cons]
      · simp [pyDictSet, List.lookup_cons, beq_false_of_ne h2, h2]
    · by_cases h2 : k = a
      · subst h2
        simp [pyDictSet, List.lookup_cons, h1]
      · simp [pyDictSet, List.lookup_cons, beq_false_of_ne h2, h1, ih]

/-- Assigning a fresh key to a Python `dict` appends the entry. -/
theorem pyDictSet_fresh {α β : Type} [DecidableEq α] (l : List (α × β)) (k : α) (v : β)
    (h : ∀ kv ∈ l, kv.1 ≠ k) : pyDictSet l k v = l ++ [(k, v)] := by
  induction l with
  | nil => rfl
  | cons kv rest ih =>
    rw [pyDictSet, if_neg (h kv (List.mem_cons_self _ _)),
      ih (fun kv' h' => h kv' (List.mem_cons_of_mem _ h'))]
    rfl

/-- Lookup characterisation of the inner assignment loop of
`make_correction_table`. -/
theorem assignCorrections_lookup (correct : String) (cs : List (String × String))
    (bs : List String) (k : String) :
    List.lookup k (assignCorrections correct cs bs) =
      if k ∈ bs ∧ k ≠ correct then some correct else List.lookup k cs := by
  induction bs generalizing cs with
  | nil => simp [assignCorrections]
  | cons b bs ih =>
    rw [assignCorrections, ih]
    by_cases hmem : k ∈ bs ∧ k ≠ correct
    · rw [if_pos hmem, if_pos ⟨List.mem_cons_of_mem _ hmem.1, hmem.2⟩]
    · rw [if_neg hmem]
      by_cases hb : b = correct
      · rw [if_neg (show ¬(b ≠ correct) by simp [hb])]
        have hcond : ¬(k ∈ b :: bs ∧ k ≠ correct) := by
          rintro ⟨hin, hne⟩
          rcases List.mem_cons.mp hin with rfl | hin2
          · exact hne hb
          · exact hmem ⟨hin2, hne⟩
        rw [if_neg hcond]
      · rw [if_pos hb, pyDictSet_lookup]
        by_cases hk : k = b
        · subst hk
          rw [if_pos rfl, if_pos ⟨List.mem_cons_self _ _, hb⟩]
        · rw [if_neg hk]
          have hcond : ¬(k ∈ b :: bs ∧ k ≠ correct) := by
            rintro ⟨hin, hne⟩
            rcases List.mem_cons.mp hin with rfl | hin2
            · exact hk rfl
            · exact hmem ⟨hin2, hne⟩
          rw [if_neg hcond]

/-- Lookup characterisation of one component step of `make_correction_table`
when the sorted component is non-empty. -/
theorem processComponent_lookup (key : String → Nat) (cs : List (String × String))
    (comp : List String) (k correct : String) (rest : List String)
    (hs : sortDescBy key comp = correct :: rest) :
    List.lookup k (processComponent key cs comp) =
      if k ∈ correct :: rest ∧ k ≠ correct then some correct
      else List.lookup k cs := by
  rw [processComponent, hs, assignCorrections_lookup]

/-- A barcode outside a component is untouched by that component's step. -/
theorem processComponent_lookup_not_mem (key : String → Nat)
    (cs : List (String × String)) (comp : List String) (k : String)
    (hk : k ∉ comp) :
    List.lookup k (processComponent key cs comp) = List.lookup k cs := by
  cases hs : sortDescBy key comp with
  | nil => rw [processComponent, hs]
  | cons correct rest =>
    rw [processComponent_lookup key cs comp k correct rest hs, if_neg]
    rintro ⟨hin, _⟩
    apply hk
    have hmem : k ∈ sortDescBy key comp := hs ▸ hin
    simpa [sortDescBy] using hmem

/-- A barcode outside every remaining component is untouched by the whole
fold of `make_correction_table`. -/
theorem mct_fold_not_mem (choose_by : ChooseBy) (fc : String → Nat)
    (edges : List (String × String)) (comps : List (List String)) (k : String)
    (hk : ∀ c ∈ comps, k ∉ c) :
    ∀ cs, List.lookup k
      (comps.foldl
        (fun cs comp => processComponent (componentKey choose_by fc edges comp) cs comp) cs) =
      List.lookup k cs := by
  induction comps with
  | nil => intro cs; rfl
  | cons c rest ih =>
    intro cs
    rw [List.foldl_cons, ih (fun c' hc' => hk c' (List.mem_cons_of_mem _ hc'))]
    exact processComponent_lookup_not_mem _ _ _ _ (hk c (List.mem_cons_self _ _))

/-- The fold of `make_correction_table` maps every non-canonical member of a
component (one of a pairwise-disjoint family) to the canonical one, and never
adds the canonical barcode as a key. -/
theorem mct_fold_spec (choose_by : ChooseBy) (fc : String → Nat)
    (edges : List (String × String)) (comp : List String)
    (canon : String) (rest : List String)
    (hsort : sortDescBy (componentKey choose_by fc edges comp) comp = canon :: rest) :
    ∀ (comps : List (List String)) (cs : List (String × String)),
    comps.Pairwise (fun c1 c2 => ∀ x ∈ c1, x ∉ c2) → comp ∈ comps →
    ((∀ b ∈ comp, b ≠ canon →
      List.lookup b (comps.foldl
        (fun cs c => processComponent (componentKey choose_by fc edges c) cs c) cs) =
        some canon) ∧
     (List.lookup canon cs = none →
      List.lookup canon (comps.foldl
        (fun cs c => processComponent (componentKey choose_by fc edges c) cs c) cs) =
        none)) := by
  have hcanonmem : canon ∈ comp := by
    have hmem : canon ∈ sortDescBy (componentKey choose_by fc edges comp) comp :=
      hsort ▸ List.mem_cons_self _ _
    simpa [sortDescBy] using hmem
  intro comps
  induction comps with
  | nil => intro cs _ hcomp; cases hcomp
  | cons c crest ih =>
    intro cs hdisj hcomp
    obtain ⟨hhead, htail⟩ := List.pairwise_cons.mp hdisj
    rcases List.mem_cons.mp hcomp with rfl | hmem2
    · -- comp is the first component
      constructor
      · intro b hb hbne
        rw [List.foldl_cons]
        rw [mct_fold_not_mem choose_by fc edges crest b
          (fun c2 hc2 => hhead c2 hc2 b hb)]
        rw [processComponent_lookup _ _ _ _ _ _ hsort, if_pos]
        constructor
        · have : b ∈ sortDescBy (componentKey choose_by fc edges comp) comp := by
            simpa [sortDescBy] using hb
          exact hsort ▸ this
        · exact hbne
      · intro hnone
        rw [List.foldl_cons]
        rw [mct_fold_not_mem choose_by fc edges crest canon
          (fun c2 hc2 => hhead c2 hc2 canon hcanonmem)]
        rw [processComponent_lookup _ _ _ _ _ _ hsort, if_neg]
        · exact hnone
        · rintro ⟨_, hne⟩
          exact hne rfl
    · -- comp is further down the list
      have hccanon : canon ∉ c := fun hc => hhead comp hmem2 canon hc hcanonmem
      constructor
      · intro b hb hbne
        rw [List.foldl_cons]
        exact (ih _ htail hmem2).1 b hb hbne
      · intro hnone
        rw [List.foldl_cons]
        refine (ih _ htail hmem2).2 ?_
        rw [processComponent_lookup_not_mem _ _ _ _ hccanon]
        exact hnone

/-- C3: for every connected component (taken from the external
`networkx.connected_components`, hence assumed pairwise disjoint),
`make_correction_table` selects as canonical the member that sorts first when
the members are sorted in descending order of the chosen key (the sorted list
is a permutation of the component, descending in the key), maps every other
member of the component to the canonical barcode, and never includes the
canonical barcode itself as a key of the returned map. -/
theorem correction_table_spec (choose_by : ChooseBy) (fc : String → Nat)
    (edges : List (String × String)) (components : List (List String))
    (hdisj : components.Pairwise (fun c1 c2 => ∀ x ∈ c1, x ∉ c2))
    (comp : List String) (hcomp : comp ∈ components)
    (canon : String) (rest : List String)
    (hsort : sortDescBy (componentKey choose_by fc edges comp) comp = canon :: rest) :
    (canon :: rest).Perm comp ∧
    List.Pairwise (fun a b => componentKey choose_by fc edges comp b ≤
      componentKey choose_by fc edges comp a) (canon :: rest) ∧
    (∀ b ∈ comp, b ≠ canon →
      List.lookup b (make_correction_table choose_by fc edges components) = some canon) ∧
    List.lookup canon (make_correction_table choose_by fc edges components) = none := by
  have hperm : (canon :: rest).Perm comp := by
    have := List.perm_insertionSort
      (fun a b => componentKey choose_by fc edges comp b ≤ componentKey choose_by fc edges comp a)
      comp
    rw [sortDescBy] at hsort
    exact hsort ▸ this
  have hsorted : List.Pairwise (fun a b => componentKey choose_by fc edges comp b ≤
      componentKey choose_by fc edges comp a) (canon :: rest) := by
    letI r : String → String → Prop := fun a b =>
      componentKey choose_by fc edges comp b ≤ componentKey choose_by fc edges comp a
    haveI : IsTotal String r :=
      ⟨fun a b => Nat.le_total (componentKey choose_by fc edges comp b)
        (componentKey choose_by fc edges comp a)⟩
    haveI : IsTrans String r := ⟨fun _ _ _ hab hbc => le_trans hbc hab⟩
    have hs := List.sorted_insertionSort r comp
    rw [sortDescBy] at hsort
    rw [hsort] at hs
    exact hs
  refine ⟨hperm, hsorted, ?_, ?_⟩
  · intro b hb hbne
    exact (mct_fold_spec choose_by fc edges comp canon rest hsort components []
      hdisj hcomp).1 b hb hbne
  · exact (mct_fold_spec choose_by fc edges comp canon rest hsort components []
      hdisj hcomp).2 rfl

/-- Witness for C3 on a single two-barcode component under the "count"
policy: "AAAA" (count 2) beats "AAAT" (count 1) and "AAAT" maps to it. -/
theorem correction_table_spec_witness :
    List.lookup "AAAT" (make_correction_table .count
      (fun b => if b = "AAAA" then 2 else 1) [] [["AAAA", "AAAT"]]) = some "AAAA" :=
  ((correction_table_spec .count (fun b => if b = "AAAA" then 2 else 1) []
    [["AAAA", "AAAT"]] (by simp) ["AAAA", "AAAT"] (by simp) "AAAA" ["AAAT"]
    (by rfl)).2.2.1) "AAAT" (by simp) (by decide)

/-- A record continuing the current family only increments the counter of its
order. -/
theorem gfcStep_same_bar (b o : String) (extra : List String)
    (t : List (Option String × Option FamCounts)) (c : FamCounts)
    (ho : o = "ab" ∨ o = "ba") :
    gfcStepFields false ⟨t, some b, some c⟩ (b :: o :: extra) =
      .ok ⟨t, some b,
        some (if o = "ab" then { c with ab := c.ab + 1 }
              else { c with ba := c.ba + 1 })⟩ := by
  rcases ho with rfl | rfl <;> simp [gfcStepFields]

/-- A record starting a new family stores the finished previous counter and
starts a fresh counter with the record's order counted once. -/
theorem gfcStep_new_bar (b o : String) (extra : List String)
    (t : List (Option String × Option FamCounts)) (last : Option String)
    (cur : Option FamCounts) (hlast : some b ≠ last) (ho : o = "ab" ∨ o = "ba") :
    gfcStepFields false ⟨t, last, cur⟩ (b :: o :: extra) =
      .ok ⟨pyDictSet t last (finishOpt cur), some b,
        some (if o = "ab" then ⟨1, 0, 0⟩ else ⟨0, 1, 0⟩)⟩ := by
  rcases ho with rfl | rfl <;> simp [gfcStepFields, hlast]

/-- Running the rest of a family's records from a same-barcode state only
accumulates the per-order counts. -/
theorem gfc_run (b : String) (items : List (String × List String))
    (horders : ∀ it ∈ items, it.1 = "ab" ∨ it.1 = "ba") :
    ∀ (t : List (Option String × Option FamCounts)) (c : FamCounts),
    gfcLoop false ⟨t, some b, some c⟩ (items.map (fun it => b :: it.1 :: it.2)) =
      .ok ⟨t, some b, some ⟨c.ab + cntOrder "ab" items,
        c.ba + cntOrder "ba" items, c.all⟩⟩ := by
  induction items with
  | nil =>
    intro t c
    simp [gfcLoop, cntOrder]
  | cons it rest ih =>
    intro t c
    obtain ⟨o, extra⟩ := it
    have horest : ∀ it ∈ rest, it.1 = "ab" ∨ it.1 = "ba" :=
      fun it h => horders it (List.mem_cons_of_mem _ h)
    have ho := horders (o, extra) (List.mem_cons_self _ _)
    rw [List.map_cons, gfcLoop, gfcStep_same_bar b o extra t c ho]
    rcases ho with ho | ho <;> simp only at ho <;> subst ho
    · show gfcLoop false _ _ = _
      rw [ih horest]
      simp [cntOrder, List.filter_cons]
      omega
    · show gfcLoop false _ _ = _
      rw [ih horest]
      simp [cntOrder, List.filter_cons]
      omega

/-- Running one whole family's records from a different-barcode state
finishes the previous family and counts the new one. -/
theorem gfc_group (b : String) (items : List (String × List String))
    (hne : items ≠ [])
    (horders : ∀ it ∈ items, it.1 = "ab" ∨ it.1 = "ba")
    (t : List (Option String × Option FamCounts)) (last : Option String)
    (cur : Option FamCounts) (hlast : some b ≠ last) :
    gfcLoop false ⟨t, last, cur⟩ (items.map (fun it => b :: it.1 :: it.2)) =
      .ok ⟨pyDictSet t last (finishOpt cur), some b, some (groupCounts items)⟩ := by
  match items, hne with
  | (o, extra) :: rest, _ =>
    have horest : ∀ it ∈ rest, it.1 = "ab" ∨ it.1 = "ba" :=
      fun it h => horders it (List.mem_cons_of_mem _ h)
    have ho := horders (o, extra) (List.mem_cons_self _ _)
    rw [List.map_cons, gfcLoop, gfcStep_new_bar b o extra t last cur hlast ho]
    rcases ho with ho | ho <;> simp only at ho <;> subst ho
    · show gfcLoop false _ _ = _
      rw [gfc_run b rest horest]
      simp [groupCounts, cntOrder, List.filter_cons]
      omega
    · show gfcLoop false _ _ = _
      rw [gfc_run b rest horest]
      simp [groupCounts, cntOrder, List.filter_cons]
      omega

/-- The record loop distributes over list concatenation. -/
theorem gfcLoop_append (check_ids : Bool) (xs ys : List (List String)) :
    ∀ st, gfcLoop check_ids st (xs ++ ys) =
      match gfcLoop check_ids st xs with
      | .error e => .error e
      | .ok st' => gfcLoop check_ids st' ys := by
  induction xs with
  | nil => intro st; rfl
  | cons x xs ih =>
    intro st
    simp only [List.cons_append, gfcLoop]
    cases gfcStepFields check_ids st x with
    | error e => rfl
    | ok st' => exact ih st'

/-- The loop plus final flush over a grouped stream equals the closed-form
table. -/
theorem gfcRun_groups (groups : List (String × List (String × List String))) :
    ∀ (t : List (Option String × Option FamCounts)) (last : Option String)
      (cur : Option FamCounts),
    (cur ≠ none ∨ groups ≠ []) →
    (∀ g ∈ groups, ∀ it ∈ g.2, it.1 = "ab" ∨ it.1 = "ba") →
    (∀ g ∈ groups, g.2 ≠ []) →
    ((groups.map Prod.fst).Nodup) →
    (∀ g ∈ groups, some g.1 ≠ last) →
    gfcRun false ⟨t, last, cur⟩ (recordsOfGroups groups) =
      .ok (gfcExpected t last cur groups) := by
  induction groups with
  | nil =>
    intro t last cur hcur _ _ _ _
    rcases cur with _ | c
    · rcases hcur with h | h
      · exact absurd rfl h
      · exact absurd rfl h
    · rfl
  | cons g rest ih =>
    intro t last cur _ horders hitems hnodup hlast
    obtain ⟨b, items⟩ := g
    have hbrest : ∀ g2 ∈ rest, some g2.1 ≠ (some b : Option String) := by
      intro g2 hg2 hcon
      have hb2 : g2.1 = b := by injection hcon
      have : b ∈ rest.map Prod.fst := hb2 ▸ List.mem_map_of_mem Prod.fst hg2
      exact (List.nodup_cons.mp hnodup).1 this
    have hloop := gfcLoop_append false
      (items.map (fun it => b :: it.1 :: it.2)) (recordsOfGroups rest)
      ⟨t, last, cur⟩
    rw [gfc_group b items (hitems (b, items) (List.mem_cons_self _ _))
      (horders (b, items) (List.mem_cons_self _ _)) t last cur
      (hlast (b, items) (List.mem_cons_self _ _))] at hloop
    have hrest := ih (pyDictSet t last (finishOpt cur)) (some b)
      (some (groupCounts items)) (Or.inl (by simp))
      (fun g2 hg2 => horders g2 (List.mem_cons_of_mem _ hg2))
      (fun g2 hg2 => hitems g2 (List.mem_cons_of_mem _ hg2))
      (List.nodup_cons.mp hnodup).2 hbrest
    rw [gfcRun] at hrest ⊢
    rw [recordsOfGroups, hloop]
    exact hrest

/-- With fresh keys throughout, the closed-form table is the sentinel entry
followed by one finished entry per group. -/
theorem gfcExpected_eq_append (groups : List (String × List (String × List String))) :
    ∀ (t : List (Option String × Option FamCounts)) (last : Option String)
      (cur : Option FamCounts),
    (last ∉ t.map Prod.fst) →
    (∀ g ∈ groups, (some g.1 : Option String) ∉ t.map Prod.fst) →
    (∀ g ∈ groups, some g.1 ≠ last) →
    ((groups.map Prod.fst).Nodup) →
    gfcExpected t last cur groups =
      t ++ (last, finishOpt cur) ::
        groups.map (fun g => ((some g.1 : Option String), some (finCounts g.2))) := by
  induction groups with
  | nil =>
    intro t last cur hlf _ _ _
    rw [gfcExpected, pyDictSet_fresh]
    · rfl
    · intro kv hkv hkv1
      exact hlf (hkv1 ▸ List.mem_map_of_mem Prod.fst hkv)
  | cons g rest ih =>
    intro t last cur hlf hgf hgl hnodup
    have hset : pyDictSet t last (finishOpt cur) = t ++ [(last, finishOpt cur)] := by
      apply pyDictSet_fresh
      intro kv hkv hkv1
      exact hlf (hkv1 ▸ List.mem_map_of_mem Prod.fst hkv)
    have hkeys : (pyDictSet t last (finishOpt cur)).map Prod.fst =
        t.map Prod.fst ++ [last] := by
      rw [hset, List.map_append]
      rfl
    rw [gfcExpected, ih (pyDictSet t last (finishOpt cur)) (some g.1)
      (some (groupCounts g.2)) ?f1 ?f2 ?f3 ?f4]
    case f1 =>
      rw [hkeys]
      intro hmem
      rcases List.mem_append.mp hmem with hmem | hmem
      · exact hgf g (List.mem_cons_self _ _) hmem
      · exact hgl g (List.mem_cons_self _ _) (List.mem_singleton.mp hmem)
    case f2 =>
      intro g2 hg2
      rw [hkeys]
      intro hmem
      rcases List.mem_append.mp hmem with hmem | hmem
      · exact hgf g2 (List.mem_cons_of_mem _ hg2) hmem
      · exact hgl g2 (List.mem_cons_of_mem _ hg2) (List.mem_singleton.mp hmem)
    case f3 =>
      intro g2 hg2 hcon
      have hb2 : g2.1 = g.1 := by injection hcon
      have : g.1 ∈ rest.map Prod.fst := hb2 ▸ List.mem_map_of_mem Prod.fst hg2
      exact (List.nodup_cons.mp hnodup).1 this
    case f4 => exact (List.nodup_cons.mp hnodup).2
    rw [hset]
    have hfin : finishOpt (some (groupCounts g.2)) = some (finCounts g.2) := rfl
    rw [hfin]
    simp [List.append_assoc]

/-- A barcode appearing in none of the groups has no matching records. -/
theorem count_records_zero (groups : List (String × List (String × List String)))
    (b o : String) (hb : ∀ g ∈ groups, g.1 ≠ b) :
    ((recordsOfGroups groups).filter (fun r => r.take 2 = [b, o])).length = 0 := by
  induction groups with
  | nil => rfl
  | cons g rest ih =>
    rw [recordsOfGroups, List.filter_append, List.length_append]
    have h1 : (g.2.map (fun it => g.1 :: it.1 :: it.2)).filter
        (fun r => r.take 2 = [b, o]) = [] := by
      rw [List.filter_eq_nil_iff]
      intro r hr
      rcases List.mem_map.mp hr with ⟨it, _, rfl⟩
      simp [hb g (List.mem_cons_self _ _)]
    rw [h1, ih (fun g2 hg2 => hb g2 (List.mem_cons_of_mem _ hg2))]
    rfl

/-- For a group in a nodup grouped stream, the records carrying its barcode
and a given order are exactly that group's lines of that order. -/
theorem count_records_of_mem (groups : List (String × List (String × List String)))
    (b : String) (items : List (String × List String)) (o : String) :
    ((groups.map Prod.fst).Nodup) → (b, items) ∈ groups →
    ((recordsOfGroups groups).filter (fun r => r.take 2 = [b, o])).length =
      cntOrder o items := by
  induction groups with
  | nil => intro _ h; cases h
  | cons g rest ih =>
    intro hnodup hmem
    rw [recordsOfGroups, List.filter_append, List.length_append]
    rcases List.mem_cons.mp hmem with heq | hmem2
    · have hg1 : g.1 = b := by rw [← heq]
      have hg2 : g.2 = items := by rw [← heq]
      have hzero : ((recordsOfGroups rest).filter
          (fun r => r.take 2 = [b, o])).length = 0 := by
        apply count_records_zero
        intro g2 hg2' hcon
        have : g2.1 ∈ rest.map Prod.fst := List.mem_map_of_mem Prod.fst hg2'
        rw [hcon, ← hg1] at this
        exact (List.nodup_cons.mp hnodup).1 this
      rw [hzero]
      have hfm : (g.2.map (fun it => g.1 :: it.1 :: it.2)).filter
          (fun r => r.take 2 = [b, o]) =
          (g.2.filter (fun it => it.1 = o)).map (fun it => g.1 :: it.1 :: it.2) := by
        rw [List.filter_map]
        congr 1
        apply List.filter_congr
        intro it _
        simp [Function.comp, hg1]
      rw [hfm, List.length_map, cntOrder, hg2]
      omega
    · have hg1b : g.1 ≠ b := by
        intro hcon
        have : b ∈ rest.map Prod.fst := List.mem_map_of_mem Prod.fst hmem2
        rw [← hcon] at this
        exact (List.nodup_cons.mp hnodup).1 this
      have h1 : (g.2.map (fun it => g.1 :: it.1 :: it.2)).filter
          (fun r => r.take 2 = [b, o]) = [] := by
        rw [List.filter_eq_nil_iff]
        intro r hr
        rcases List.mem_map.mp hr with ⟨it, _, rfl⟩
        simp [hg1b]
      rw [h1]
      simpa using ih (List.nodup_cons.mp hnodup).2 hmem2

/-- Looking a barcode up in the per-group entries yields its group's finished
counts. -/
theorem lookup_entries (groups : List (String × List (String × List String)))
    (b : String) (oc : Option FamCounts) :
    List.lookup (some b)
      (groups.map (fun g => ((some g.1 : Option String), some (finCounts g.2)))) =
      some oc →
    ∃ items, (b, items) ∈ groups ∧ oc = some (finCounts items) := by
  induction groups with
  | nil => intro h; cases h
  | cons g rest ih =>
    intro h
    rw [List.map_cons, List.lookup_cons] at h
    by_cases hb : b = g.1
    · refine ⟨g.2, ?_, ?_⟩
      · exact hb ▸ List.mem_cons_self _ _
      · have hbeq : ((some b : Option String) == some g.1) = true := by
          rw [beq_iff_eq, hb]
        rw [hbeq] at h
        injection h with h
        exact h.symm
    · have hbeq : ((some b : Option String) == some g.1) = false := by
        rw [beq_eq_false_iff_ne]
        intro hcon
        exact hb (by injection hcon)
      rw [hbeq] at h
      rcases ih h with ⟨items, hmem, hoc⟩
      exact ⟨items, List.mem_cons_of_mem _ hmem, hoc⟩

/-- C10: over barcode-sorted (grouped) input with valid orders,
`get_family_counts` succeeds, its table contains the sentinel entry mapping
`None` to `None`, and every entry keyed by an actual barcode satisfies
`all = ab + ba` with `ab`/`ba` equal to the number of input records carrying
that barcode with order "ab"/"ba". -/
theorem family_counts_spec (groups : List (String × List (String × List String)))
    (hne : groups ≠ [])
    (horders : ∀ g ∈ groups, ∀ it ∈ g.2, it.1 = "ab" ∨ it.1 = "ba")
    (hitems : ∀ g ∈ groups, g.2 ≠ [])
    (hnodup : (groups.map Prod.fst).Nodup) :
    ∃ table, get_family_counts_fields false (recordsOfGroups groups) =
        .ok (table, (recordsOfGroups groups).length) ∧
      List.lookup none table = some none ∧
      (∀ (b : String) (oc : Option FamCounts),
        List.lookup (some b) table = some oc →
        ∃ c, oc = some c ∧ c.all = c.ab + c.ba ∧
          c.ab = ((recordsOfGroups groups).filter
            (fun r => r.take 2 = [b, "ab"])).length ∧
          c.ba = ((recordsOfGroups groups).filter
            (fun r => r.take 2 = [b, "ba"])).length) := by
  have hrun := gfcRun_groups groups [] none none (Or.inr hne) horders hitems hnodup
    (fun g _ => by simp)
  have hexp := gfcExpected_eq_append groups [] none none (by simp)
    (fun g _ => by simp) (fun g _ => by simp) hnodup
  rw [hexp] at hrun
  refine ⟨(none, finishOpt none) ::
    groups.map (fun g => ((some g.1 : Option String), some (finCounts g.2))), ?_, ?_, ?_⟩
  · rw [get_family_counts_fields]
    rw [gfcRun] at hrun
    cases hloop : gfcLoop false (⟨[], none, none⟩ : GFCState) (recordsOfGroups groups) with
    | error e => rw [hloop] at hrun; cases hrun
    | ok st =>
      rw [hloop] at hrun
      have hfin : gfcFinish st =
          .ok ([] ++ (none, finishOpt none) ::
            groups.map (fun g => ((some g.1 : Option String), some (finCounts g.2)))) := hrun
      show (match gfcFinish st with
            | Except.error e => Except.error e
            | Except.ok table => Except.ok (table, (recordsOfGroups groups).length)) = _
      rw [hfin]
      rfl
  · rfl
  · intro b oc hlook
    have hlook2 : List.lookup (some b)
        (groups.map (fun g => ((some g.1 : Option String), some (finCounts g.2)))) =
        some oc := by
      rw [List.lookup_cons] at hlook
      have hbeq : ((some b : Option String) == none) = false := by
        rw [beq_eq_false_iff_ne]
        simp
      rw [hbeq] at hlook
      exact hlook
    rcases lookup_entries groups b oc hlook2 with ⟨items, hmem, rfl⟩
    refine ⟨finCounts items, rfl, rfl, ?_, ?_⟩
    · rw [count_records_of_mem groups b items "ab" hnodup hmem]
      rfl
    · rw [count_records_of_mem groups b items "ba" hnodup hmem]
      rfl

/-- Witness for C10 on two concrete families: "AAAA" with two ab lines and
one ba line, then "CCCC" with one ba line. -/
theorem family_counts_spec_witness :
    ∃ table, get_family_counts_fields false (recordsOfGroups
        [("AAAA", [("ab", []), ("ab", []), ("ba", [])]), ("CCCC", [("ba", [])])]) =
        .ok (table, (recordsOfGroups
          [("AAAA", [("ab", []), ("ab", []), ("ba", [])]), ("CCCC", [("ba", [])])]).length) ∧
      List.lookup none table = some none ∧
      (∀ (b : String) (oc : Option FamCounts),
        List.lookup (some b) table = some oc →
        ∃ c, oc = some c ∧ c.all = c.ab + c.ba ∧
          c.ab = ((recordsOfGroups
            [("AAAA", [("ab", []), ("ab", []), ("ba", [])]), ("CCCC", [("ba", [])])]).filter
              (fun r => r.take 2 = [b, "ab"])).length ∧
          c.ba = ((recordsOfGroups
            [("AAAA", [("ab", []), ("ab", []), ("ba", [])]), ("CCCC", [("ba", [])])]).filter
              (fun r => r.take 2 = [b, "ba"])).length) :=
  family_counts_spec [("AAAA", [("ab", []), ("ab", []), ("ba", [])]), ("CCCC", [("ba", [])])]
    (by simp) (by decide) (by decide) (by decide)

end Dunovo
